import Mathlib

/-!
Verification of the core computations of a GitHub REST client
(`lib/githubREST.py`, `main/UserReposTraffic.py`, `main/GitHubRepl.py`):
liveness filtering of forks, paginated fetching with a page cap,
the persisted traffic ledger merge, and weighted scoring with ranking.

Timestamps are modelled as natural numbers (seconds since the epoch):
the helper `utils.getDatetime` parses an ISO-8601 string into a
comparable instant, and every use in the sources is a comparison or an
addition of a duration, so the embedding works directly with instants.
A `datetime.timedelta(weeks = w)` is `w * 604800` seconds.
-/

namespace ActiveGithub

/-- Modelled from the spec: `utils.getDatetime` (in `lib/utils.py`, which is
not among the provided sources) "parses platform timestamps into comparable
instants".  Timestamps are embedded directly as instants (epoch seconds),
so the parser is the identity on instants. -/
def getDatetime (t : Nat) : Nat := t

/-- A fork as consumed by `getListOfAliveForks`: only `full_name` and the
parsed `pushed_at` instant are read. -/
structure Fork where
  fullName : String
  lastPushedAt : Nat
deriving DecidableEq, Repr

/-- `isAlive` from `getListOfAliveForks` in `lib/githubREST.py` line 51:
`forkedRepoPushedAt + datetime.timedelta(weeks=lifespan) > datetime.datetime.now()`.
`now` is passed explicitly; a week is 604800 seconds. -/
def isAlive (lastPushedAt now lifespanWeeks : Nat) : Bool :=
  decide (now < lastPushedAt + lifespanWeeks * 604800)

/-- `getListOfAliveForks` from `lib/githubREST.py` lines 44-55.  The list of
forks (fetched over the network in the source) and the current time are
parameters.  Returns the pair `(aliveRepos, forkedRepos)` exactly as the
source does. -/
def getListOfAliveForks (forkedRepos : List Fork) (sourcePushedAt : Nat)
    (lifespan : Nat) (now : Nat) (enableNewer : Bool) : List Fork × List Fork :=
  (forkedRepos.filter fun forkedRepo =>
    let a := isAlive (getDatetime forkedRepo.lastPushedAt) now lifespan
    let isNewer := decide (getDatetime sourcePushedAt < getDatetime forkedRepo.lastPushedAt)
    (a && isNewer) || (a && !enableNewer), forkedRepos)

/-- One daily traffic record as persisted by `mergeDataWithJson`:
`{'timestamp': ..., 'uniques': ...}`. -/
structure TrafficSample where
  timestamp : Nat
  uniques : Nat
deriving DecidableEq, Repr

/-- The sentinel record `{'timestamp': '2000-01-01T00:00:00Z', 'uniques': 0}`
seeded by `mergeDataWithJson` (`main/UserReposTraffic.py` line 26);
946684800 is the epoch instant of 2000-01-01T00:00:00Z. -/
def sentinelSample : TrafficSample := ⟨946684800, 0⟩

/-- Timestamp of the last stored sample, `userRepoTrafficType[-1]["timestamp"]`.
Every call site passes a non-empty list (the entry is seeded with
`sentinelSample` when missing); the value on `[]` is junk (Python would
raise `IndexError` there). -/
def lastTimestamp (l : List TrafficSample) : Nat :=
  (l.getLast?.map TrafficSample.timestamp).getD 0

/-- The merge loop of `mergeDataWithJson` (`main/UserReposTraffic.py`
lines 31-34): for each fresh `day`, append it exactly when its timestamp is
strictly greater than the timestamp of the current last stored sample. -/
def mergeLoop : List TrafficSample → List TrafficSample → List TrafficSample
  | stored, [] => stored
  | stored, day :: rest =>
    if getDatetime (lastTimestamp stored) < getDatetime day.timestamp then
      mergeLoop (stored ++ [⟨day.timestamp, day.uniques⟩]) rest
    else
      mergeLoop stored rest

/-- The persisted ledger `userReposTraffic.json`: repository name, then
traffic kind, to an optional stored sequence.  `none` models an absent key
(missing repo entry and missing kind entry are observationally the same:
the only reads are two-level lookups). -/
abbrev Ledger : Type := String → String → Option (List TrafficSample)

/-- Writing `userReposTraffic[repoName][trafficType] = v` before the ledger
is dumped back to disk. -/
def updateLedger (L : Ledger) (repoName trafficType : String)
    (v : List TrafficSample) : Ledger :=
  fun r k => if r = repoName ∧ k = trafficType then some v else L r k

/-- `mergeDataWithJson` from `main/UserReposTraffic.py` lines 15-38, with the
file read/write and the traffic endpoint abstracted into the `L` and `days`
parameters: a missing (repo, kind) entry is seeded with `[sentinelSample]`,
then the merge loop runs and the entry is rewritten. -/
def mergeDataWithJson (L : Ledger) (repoName trafficType : String)
    (days : List TrafficSample) : Ledger :=
  let userRepoTrafficType :=
    match L repoName trafficType with
    | none => [sentinelSample]
    | some l => l
  updateLedger L repoName trafficType (mergeLoop userRepoTrafficType days)

/-- `getJsonData` from `main/UserReposTraffic.py` lines 41-46: sum the
`uniques` field over the stored samples of one (repo, kind).  A missing key
raises `KeyError` in the source; that is `none` here. -/
def getJsonData (L : Ledger) (repoName trafficType : String) : Option Nat :=
  (L repoName trafficType).map fun l =>
    l.foldl (fun returnData trafficEntity => returnData + trafficEntity.uniques) 0

/-- A sequence of merges against the persisted ledger, one
(repoName, trafficType, freshSamples) triple at a time, as the main loop of
`main/UserReposTraffic.py` performs for clones and views of each repo. -/
def applyMerges (L : Ledger) (ops : List (String × String × List TrafficSample)) : Ledger :=
  ops.foldl (fun acc op => mergeDataWithJson acc op.1 op.2.1 op.2.2) L

/-- `stored sequence strictly ascending by timestamp` — the ledger invariant
of the spec.  Strict ascent gives pairwise-distinct timestamps, hence at
most one sample per day. -/
abbrev strictAsc (l : List TrafficSample) : Prop :=
  l.Pairwise fun a b => a.timestamp < b.timestamp

/-- Every stored entry of the ledger is strictly ascending. -/
def LedgerSorted (L : Ledger) : Prop :=
  ∀ r k l, L r k = some l → strictAsc l

/-- The weighted score from the main loop of `main/UserReposTraffic.py`
line 71: `len(aliveForks) * 8 + stars * 4 + clones * 2 + views`. -/
def score (aliveForkCount starCount clonesTotal viewsTotal : Nat) : Nat :=
  aliveForkCount * 8 + starCount * 4 + clonesTotal * 2 + viewsTotal

/-- One entry of `sortRepos` in `main/UserReposTraffic.py` line 72:
the tuple `(score, label, len(aliveForks), stars, clones, views)`. -/
structure ScoreEntry where
  score : Nat
  label : String
  aliveForkCount : Nat
  starCount : Nat
  clonesTotal : Nat
  viewsTotal : Nat
deriving DecidableEq, Repr

/-- `getKey` from `main/UserReposTraffic.py` line 76: `item[0]`, the score. -/
def getKey (item : ScoreEntry) : Nat := item.score

/-- Stable descending insertion by `getKey`: the element being inserted
came earlier in the input, so it goes in front of the first element whose
key is less than or equal to its own. -/
def insertDesc (x : ScoreEntry) : List ScoreEntry → List ScoreEntry
  | [] => [x]
  | y :: ys => if getKey y ≤ getKey x then x :: y :: ys else y :: insertDesc x ys

/-- `sortedRepos = sorted(sortRepos, key=getKey, reverse=True)` from
`main/UserReposTraffic.py` line 79.  Python's `sorted` is specified to be a
stable sort (`reverse=True` included), and a stable sort by a key is
uniquely determined by the input, so it is embedded as a stable descending
insertion sort; the theorems below establish exactly the three properties
(descending, permutation, stability) that pin that output down. -/
def sortedRepos (sortRepos : List ScoreEntry) : List ScoreEntry :=
  sortRepos.foldr insertDesc []

/-- The page cap hard-coded in `getPaginatedGithubApiRequest`
(`lib/githubREST.py` line 72): `pageLimit = 10`. -/
def pageLimit : Nat := 10

/-- Observable outcome of one paginated fetch: the concatenated items, the
page indices requested (in order), and how many truncation warnings were
logged. -/
structure FetchResult (α : Type) where
  items : List α
  fetchedPages : List Nat
  warnings : Nat
deriving Repr

/-- `getPaginatedGithubApiRequest` from `lib/githubREST.py` lines 65-81.
The remote service is the function `pages` from page index to that page's
items; `lastPageSignal` is the parsed last-page index from the `links`
header of the first response, `none` when absent or unparseable (the bare
`except` makes that `lastPage = 1`).  Page 1 is always fetched; then
`range(2, lastPage + 1)`, with `lastPage` clamped to `pageLimit` after one
warning when it exceeds the cap. -/
def getPaginatedGithubApiRequest {α : Type} (pages : Nat → List α)
    (lastPageSignal : Option Nat) : FetchResult α :=
  let firstItems := pages 1
  let lastPage0 := lastPageSignal.getD 1
  let warned := if pageLimit < lastPage0 then 1 else 0
  let lastPage := if pageLimit < lastPage0 then pageLimit else lastPage0
  let restPages := List.range' 2 (lastPage - 1)
  { items := firstItems ++ restPages.flatMap pages
    fetchedPages := 1 :: restPages
    warnings := warned }

/-- What `getGithubApiRequest` (`lib/githubREST.py` lines 8-23) reads off an
HTTP response: the `X-RateLimit-Remaining` header after `int(...)` (that
conversion always succeeds on the service's numeric headers), the raw
`X-RateLimit-Reset` header string, the decoded JSON body, and whether the
body carries a `"message"` key (the API-level error marker). -/
structure HttpResponse (α : Type) where
  rateLimitRemaining : Int
  rateLimitResetHeader : String
  body : α
  bodyHasMessageField : Bool

/-- Models CPython's `time.ctime` applied to the value the source passes it:
`request.headers["X-RateLimit-Reset"]` is a string, and `time.ctime` on a
string raises `TypeError` (it requires a number), so this always fails. -/
def pyCtimeOnHeaderString (s : String) : Except String String :=
  Except.error ("TypeError: an integer is required (got type str): " ++ s)

/-- `getGithubApiRequest` from `lib/githubREST.py` lines 8-23 (with
`jsonOnly = True`): inspect the rate-limit headers, log when exhausted, log
when the body carries a `"message"` field, return the decoded body together
with the log lines.  The rate-limit log line formats
`time.ctime(request.headers["X-RateLimit-Reset"])`, which raises, making the
whole call fail with a `TypeError` whenever the remaining count is below 1. -/
def getGithubApiRequest {α : Type} (resp : HttpResponse α) :
    Except String (α × List String) := do
  let rateLogs ←
    if resp.rateLimitRemaining < 1 then do
      let t ← pyCtimeOnHeaderString resp.rateLimitResetHeader
      pure ["Remaining rate limit is zero. Try again at " ++ t]
    else
      pure []
  let msgLogs :=
    if resp.bodyHasMessageField then ["Some error has occurred"] else []
  pure (resp.body, rateLogs ++ msgLogs)

/-! ### Helper lemmas about the merge loop -/

theorem mergeLoop_nil (stored : List TrafficSample) : mergeLoop stored [] = stored := rfl

theorem mergeLoop_cons (stored : List TrafficSample) (d : TrafficSample)
    (rest : List TrafficSample) :
    mergeLoop stored (d :: rest) =
      if lastTimestamp stored < d.timestamp then
        mergeLoop (stored ++ [d]) rest
      else
        mergeLoop stored rest := rfl

theorem lastTimestamp_concat (l : List TrafficSample) (d : TrafficSample) :
    lastTimestamp (l ++ [d]) = d.timestamp := by
  simp [lastTimestamp, List.getLast?_concat]

theorem timestamp_le_last_of_sorted (l : List TrafficSample) (h : strictAsc l) :
    ∀ x ∈ l, x.timestamp ≤ lastTimestamp l := by
  induction l using List.reverseRecOn with
  | nil => intro x hx; cases hx
  | append_singleton l a _ =>
    intro x hx
    rw [lastTimestamp_concat]
    rcases List.mem_append.mp hx with hl | ha
    · exact le_of_lt ((List.pairwise_append.mp h).2.2 x hl a (List.mem_singleton_self a))
    · rw [List.mem_singleton.mp ha]

theorem mergeLoop_sorted (days : List TrafficSample) :
    ∀ stored, strictAsc stored → strictAsc (mergeLoop stored days) := by
  induction days with
  | nil => intro stored h; exact h
  | cons d rest ih =>
    intro stored h
    rw [mergeLoop_cons]
    split
    · refine ih (stored ++ [d]) (List.pairwise_append.mpr ⟨h, List.pairwise_singleton _ _, ?_⟩)
      intro x hx b hb
      rw [List.mem_singleton.mp hb]
      exact lt_of_le_of_lt (timestamp_le_last_of_sorted stored h x hx) (by assumption)
    · exact ih stored h

theorem mergeLoop_append_suffix (days : List TrafficSample) :
    ∀ stored, ∃ t, mergeLoop stored days = stored ++ t := by
  induction days with
  | nil => intro stored; exact ⟨[], (List.append_nil stored).symm⟩
  | cons d rest ih =>
    intro stored
    rw [mergeLoop_cons]
    split
    · obtain ⟨t, ht⟩ := ih (stored ++ [d])
      exact ⟨d :: t, by rw [ht, List.append_assoc]; rfl⟩
    · exact ih stored

theorem lastTimestamp_le_mergeLoop (days : List TrafficSample) :
    ∀ stored, lastTimestamp stored ≤ lastTimestamp (mergeLoop stored days) := by
  induction days with
  | nil => intro stored; exact le_refl _
  | cons d rest ih =>
    intro stored
    rw [mergeLoop_cons]
    split
    · calc lastTimestamp stored ≤ d.timestamp := le_of_lt (by assumption)
        _ = lastTimestamp (stored ++ [d]) := (lastTimestamp_concat stored d).symm
        _ ≤ _ := ih (stored ++ [d])
    · exact ih stored

theorem mem_le_lastTimestamp_mergeLoop (days : List TrafficSample) :
    ∀ stored, ∀ e ∈ days, e.timestamp ≤ lastTimestamp (mergeLoop stored days) := by
  induction days with
  | nil => intro stored e he; cases he
  | cons d rest ih =>
    intro stored e he
    rw [mergeLoop_cons]
    rcases List.mem_cons.mp he with rfl | hrest
    · split
      · calc e.timestamp = lastTimestamp (stored ++ [e]) := (lastTimestamp_concat stored e).symm
          _ ≤ _ := lastTimestamp_le_mergeLoop rest (stored ++ [e])
      · calc e.timestamp ≤ lastTimestamp stored := Nat.le_of_not_lt (by assumption)
          _ ≤ _ := lastTimestamp_le_mergeLoop rest stored
    · split
      · exact ih (stored ++ [d]) e hrest
      · exact ih stored e hrest

theorem mergeLoop_eq_self (days : List TrafficSample) :
    ∀ stored, (∀ e ∈ days, e.timestamp ≤ lastTimestamp stored) →
      mergeLoop stored days = stored := by
  induction days with
  | nil => intro stored _; rfl
  | cons d rest ih =>
    intro stored h
    rw [mergeLoop_cons, if_neg (Nat.not_lt.mpr (h d (List.mem_cons_self d rest)))]
    exact ih stored fun e he => h e (List.mem_cons_of_mem d he)

theorem mergeLoop_idem (stored days : List TrafficSample) :
    mergeLoop (mergeLoop stored days) days = mergeLoop stored days :=
  mergeLoop_eq_self days _ (mem_le_lastTimestamp_mergeLoop days stored)

theorem mergeLoop_eq_append_filter (days : List TrafficSample) (hasc : strictAsc days) :
    ∀ stored, mergeLoop stored days =
      stored ++ days.filter (fun d => decide (lastTimestamp stored < d.timestamp)) := by
  induction days with
  | nil => intro stored; exact (List.append_nil stored).symm
  | cons d rest ih =>
    have hd : ∀ e ∈ rest, d.timestamp < e.timestamp :=
      fun e he => (List.pairwise_cons.mp hasc).1 e he
    have hrest : strictAsc rest := (List.pairwise_cons.mp hasc).2
    intro stored
    rw [mergeLoop_cons]
    by_cases hlt : lastTimestamp stored < d.timestamp
    · rw [if_pos hlt, ih hrest (stored ++ [d]), lastTimestamp_concat]
      have h1 : rest.filter (fun e => decide (d.timestamp < e.timestamp)) = rest :=
        List.filter_eq_self.mpr fun e he => decide_eq_true (hd e he)
      have h2 : rest.filter (fun e => decide (lastTimestamp stored < e.timestamp)) = rest :=
        List.filter_eq_self.mpr fun e he => decide_eq_true (lt_trans hlt (hd e he))
      rw [h1, List.filter_cons, if_pos (decide_eq_true hlt), h2, List.append_assoc]
      rfl
    · rw [if_neg hlt, ih hrest stored, List.filter_cons,
        if_neg (by simpa using hlt)]

/-! ### Helper lemmas about the ledger -/

theorem mergeDataWithJson_same (L : Ledger) (r k : String) (days : List TrafficSample) :
    mergeDataWithJson L r k days r k =
      some (mergeLoop (match L r k with | none => [sentinelSample] | some l => l) days) := by
  simp [mergeDataWithJson, updateLedger]

theorem mergeDataWithJson_other (L : Ledger) (r k : String) (days : List TrafficSample)
    (r' k' : String) (h : ¬(r' = r ∧ k' = k)) :
    mergeDataWithJson L r k days r' k' = L r' k' := by
  simp only [mergeDataWithJson, updateLedger]
  rw [if_neg h]

theorem mergeDataWithJson_sorted (L : Ledger) (r k : String) (days : List TrafficSample)
    (h : LedgerSorted L) : LedgerSorted (mergeDataWithJson L r k days) := by
  intro r' k' l' h'
  by_cases hc : r' = r ∧ k' = k
  · obtain ⟨rfl, rfl⟩ := hc
    rw [mergeDataWithJson_same] at h'
    obtain rfl := Option.some_injective _ h'.symm
    apply mergeLoop_sorted
    cases hL : L r' k' with
    | none => simp [hL, sentinelSample]
    | some l => simpa [hL] using h r' k' l hL
  · rw [mergeDataWithJson_other L r k days r' k' hc] at h'
    exact h r' k' l' h'

theorem mergeDataWithJson_entry_extend (L : Ledger) (r k : String)
    (days : List TrafficSample) (r' k' : String) (l : List TrafficSample)
    (h : L r' k' = some l) :
    ∃ m t, mergeDataWithJson L r k days r' k' = some m ∧ m = l ++ t := by
  by_cases hc : r' = r ∧ k' = k
  · obtain ⟨rfl, rfl⟩ := hc
    obtain ⟨t, ht⟩ := mergeLoop_append_suffix days l
    refine ⟨mergeLoop l days, t, ?_, ht⟩
    rw [mergeDataWithJson_same, h]
  · exact ⟨l, [], by rw [mergeDataWithJson_other L r k days r' k' hc, h], (List.append_nil l).symm⟩

theorem applyMerges_sorted (ops : List (String × String × List TrafficSample)) :
    ∀ L, LedgerSorted L → LedgerSorted (applyMerges L ops) := by
  induction ops with
  | nil => intro L h; exact h
  | cons op rest ih =>
    intro L h
    exact ih (mergeDataWithJson L op.1 op.2.1 op.2.2)
      (mergeDataWithJson_sorted L op.1 op.2.1 op.2.2 h)

theorem applyMerges_entry_extend (ops : List (String × String × List TrafficSample)) :
    ∀ L r k l, L r k = some l →
      ∃ m t, applyMerges L ops r k = some m ∧ m = l ++ t := by
  induction ops with
  | nil => intro L r k l h; exact ⟨l, [], h, (List.append_nil l).symm⟩
  | cons op rest ih =>
    intro L r k l h
    obtain ⟨m₁, t₁, hm₁, he₁⟩ :=
      mergeDataWithJson_entry_extend L op.1 op.2.1 op.2.2 r k l h
    obtain ⟨m, t₂, hm, he₂⟩ := ih (mergeDataWithJson L op.1 op.2.1 op.2.2) r k m₁ hm₁
    exact ⟨m, t₁ ++ t₂, hm, by rw [he₂, he₁, List.append_assoc]⟩

/-! ### Claim theorems for the traffic ledger -/

/-- C2: `mergeDataWithJson` appends a fresh sample to the stored sequence of
(repo, kind) exactly when its timestamp is strictly greater than the current
last stored timestamp, processing the fresh samples in order (which, for
samples ascending by day as the traffic endpoint returns them, means exactly
the samples strictly newer than the last stored timestamp are appended, in
order); a missing entry is first seeded with the single sentinel sample,
whose count is zero, so the comparison always has a predecessor. -/
theorem mergeDataWithJson_append_iff (L : Ledger) (r k : String)
    (days : List TrafficSample) (hasc : strictAsc days) :
    (L r k = none →
      mergeDataWithJson L r k days r k = some (mergeLoop [sentinelSample] days) ∧
        sentinelSample.uniques = 0) ∧
    (∀ stored, L r k = some stored →
      mergeDataWithJson L r k days r k = some (mergeLoop stored days)) ∧
    (∀ stored, mergeLoop stored days =
      stored ++ days.filter (fun d => decide (lastTimestamp stored < d.timestamp))) := by
  refine ⟨fun h => ⟨?_, rfl⟩, fun stored h => ?_, mergeLoop_eq_append_filter days hasc⟩
  · rw [mergeDataWithJson_same, h]
  · rw [mergeDataWithJson_same, h]

/-- Witness for C2 at a concrete input: two ascending fresh samples merged
into a missing entry. -/
theorem mergeDataWithJson_append_iff_witness :
    strictAsc [(⟨1600000000, 3⟩ : TrafficSample), ⟨1600086400, 5⟩] ∧
      mergeLoop [sentinelSample]
          [(⟨1600000000, 3⟩ : TrafficSample), ⟨1600086400, 5⟩] =
        [sentinelSample] ++
          ([(⟨1600000000, 3⟩ : TrafficSample), ⟨1600086400, 5⟩].filter
            (fun d => decide (lastTimestamp [sentinelSample] < d.timestamp))) :=
  ⟨by decide,
    (mergeDataWithJson_append_iff (fun _ _ => none) "repo" "views"
      [⟨1600000000, 3⟩, ⟨1600086400, 5⟩] (by decide)).2.2 [sentinelSample]⟩

/-- C3: for every ledger whose stored sequences are strictly ascending by
timestamp (hence with pairwise-distinct timestamps, at most one sample per
day), the invariant is preserved by any number of merges, and merging never
removes existing samples: every previously stored sequence is a prefix of
the final one (only strictly-newer samples are appended after it). -/
theorem applyMerges_sorted_monotone (L : Ledger)
    (ops : List (String × String × List TrafficSample)) (h : LedgerSorted L) :
    LedgerSorted (applyMerges L ops) ∧
    (∀ r k m, applyMerges L ops r k = some m →
      m.Pairwise fun a b => a.timestamp ≠ b.timestamp) ∧
    (∀ r k l, L r k = some l →
      ∃ m t, applyMerges L ops r k = some m ∧ m = l ++ t) := by
  refine ⟨applyMerges_sorted ops L h, fun r k m hm => ?_, applyMerges_entry_extend ops L⟩
  exact (applyMerges_sorted ops L h r k m hm).imp fun hlt => Nat.ne_of_lt hlt

/-- Witness for C3 at a concrete input: the empty ledger (vacuously sorted)
and one merge of one sample. -/
theorem applyMerges_sorted_monotone_witness :
    LedgerSorted (fun _ _ => none) ∧
      (LedgerSorted (applyMerges (fun _ _ => none) [("r", "views", [⟨5, 1⟩])]) ∧
        (∀ r k m,
          applyMerges (fun _ _ => none) [("r", "views", [⟨5, 1⟩])] r k = some m →
            m.Pairwise fun a b => a.timestamp ≠ b.timestamp) ∧
        (∀ r k l, (fun _ _ => none : Ledger) r k = some l →
          ∃ m t,
            applyMerges (fun _ _ => none) [("r", "views", [⟨5, 1⟩])] r k = some m ∧
              m = l ++ t)) :=
  ⟨fun _ _ _ hl => Option.noConfusion hl,
    applyMerges_sorted_monotone (fun _ _ => none) [("r", "views", [⟨5, 1⟩])]
      (fun _ _ _ hl => Option.noConfusion hl)⟩

/-- C4: the traffic ledger merge is idempotent — merging the same fresh
samples twice yields exactly the ledger obtained by merging them once; no
duplicate timestamps are appended on the second merge. -/
theorem mergeDataWithJson_idem (L : Ledger) (r k : String)
    (days : List TrafficSample) :
    mergeDataWithJson (mergeDataWithJson L r k days) r k days =
      mergeDataWithJson L r k days := by
  funext r' k'
  by_cases hc : r' = r ∧ k' = k
  · obtain ⟨rfl, rfl⟩ := hc
    rw [mergeDataWithJson_same, mergeDataWithJson_same L r' k' days]
    cases hL : L r' k' with
    | none => simp [hL, mergeLoop_idem]
    | some stored => simp [hL, mergeLoop_idem]
  · rw [mergeDataWithJson_other _ r k days r' k' hc,
      mergeDataWithJson_other L r k days r' k' hc]

/-- C10: merging traffic for one (repository, kind) pair changes only that
pair's entry — every other repository's entries, and the other traffic kind
of the same repository, read back exactly as before the merge. -/
theorem mergeDataWithJson_frame (L : Ledger) (r k : String)
    (days : List TrafficSample) (r' k' : String) (h : r' ≠ r ∨ k' ≠ k) :
    mergeDataWithJson L r k days r' k' = L r' k' :=
  mergeDataWithJson_other L r k days r' k' fun hc => h.elim (fun hr => hr hc.1) fun hk => hk hc.2

/-- Witness for C10 at a concrete input: a ledger with one existing entry,
merged at a different repository, read back at the existing entry. -/
theorem mergeDataWithJson_frame_witness :
    (("a" : String) ≠ "b" ∨ ("views" : String) ≠ "views") ∧
      mergeDataWithJson
          (fun r k => if r = "a" ∧ k = "views" then some [⟨5, 2⟩] else none)
          "b" "views" [⟨7, 1⟩] "a" "views" =
        (fun r k => if r = "a" ∧ k = "views" then some [⟨5, 2⟩] else none :
          Ledger) "a" "views" :=
  ⟨Or.inl (by decide),
    mergeDataWithJson_frame
      (fun r k => if r = "a" ∧ k = "views" then some [⟨5, 2⟩] else none)
      "b" "views" [⟨7, 1⟩] "a" "views" (Or.inl (by decide))⟩

/-! ### Liveness filtering, totals, scoring, rate limit -/

/-- C1: `getListOfAliveForks` keeps a fork exactly when
`(alive ∧ newer) ∨ (alive ∧ ¬ requireNewerThanSource)`, where
`alive := now < lastPushedAt + lifespan weeks` and
`newer := sourceLastPushedAt < lastPushedAt`; so with `enableNewer = true`
an alive-but-not-newer fork is excluded, and with `enableNewer = false`
newer-ness plays no role. -/
theorem getListOfAliveForks_mem_iff (forks : List Fork) (sourcePushedAt : Nat)
    (lifespan : Nat) (now : Nat) (enableNewer : Bool) (f : Fork) :
    f ∈ (getListOfAliveForks forks sourcePushedAt lifespan now enableNewer).1 ↔
      f ∈ forks ∧
        ((now < f.lastPushedAt + lifespan * 604800 ∧ sourcePushedAt < f.lastPushedAt) ∨
          (now < f.lastPushedAt + lifespan * 604800 ∧ enableNewer = false)) := by
  simp only [getListOfAliveForks, List.mem_filter, isAlive, getDatetime,
    Bool.or_eq_true, Bool.and_eq_true, decide_eq_true_eq, Bool.not_eq_true']

/-- Sum a list of traffic samples by folding `uniques` onto an accumulator,
as the loop of `getJsonData` does. -/
theorem foldl_uniques_eq_sum (l : List TrafficSample) :
    ∀ n : Nat, l.foldl (fun acc e => acc + e.uniques) n =
      n + (l.map TrafficSample.uniques).sum := by
  induction l with
  | nil => intro n; simp
  | cons e rest ih =>
    intro n
    simp only [List.foldl_cons, List.map_cons, List.sum_cons, ih (n + e.uniques)]
    omega

/-- C5: `getJsonData` returns exactly the sum of the `uniques` field over all
stored samples of the (repo, kind) — a cumulative total over the whole
retained history; in particular, after merging samples with counts 3 and 5
into an empty entry it returns 8 (the seeded sentinel contributes 0). -/
theorem getJsonData_eq_sum :
    (∀ (L : Ledger) (r k : String),
      getJsonData L r k = (L r k).map fun l => (l.map TrafficSample.uniques).sum) ∧
    getJsonData
        (mergeDataWithJson (fun _ _ => none) "repo" "views"
          [⟨1600000000, 3⟩, ⟨1600086400, 5⟩]) "repo" "views" = some 8 := by
  constructor
  · intro L r k
    simp only [getJsonData]
    cases L r k with
    | none => rfl
    | some l => simp [foldl_uniques_eq_sum l 0]
  · decide

/-- C6: the repository score is the weighted sum
`aliveForkCount*8 + starCount*4 + clonesTotal*2 + viewsTotal*1`;
in particular `score 2 10 4 1 = 65`. -/
theorem score_eq_weighted_sum :
    (∀ aliveForkCount starCount clonesTotal viewsTotal : Nat,
      score aliveForkCount starCount clonesTotal viewsTotal =
        aliveForkCount * 8 + starCount * 4 + clonesTotal * 2 + viewsTotal * 1) ∧
    score 2 10 4 1 = 65 := by
  constructor
  · intro a s c v; simp [score]
  · decide

/-- C9 evaluated at the failing input: on a response whose remaining
rate-limit count is 0, `getGithubApiRequest` does not return the decoded
body — formatting the log line applies `time.ctime` to the raw
`X-RateLimit-Reset` header string, which raises `TypeError` in Python 3, so
the call aborts instead of logging and returning the data. -/
theorem getGithubApiRequest_rate_limit_aborts :
    getGithubApiRequest (HttpResponse.mk 0 "1700000000" (0 : Nat) false) =
      Except.error "TypeError: an integer is required (got type str): 1700000000" := rfl

/-! ### Ranking: the stable descending sort -/

theorem insertDesc_perm (x : ScoreEntry) (l : List ScoreEntry) :
    (insertDesc x l).Perm (x :: l) := by
  induction l with
  | nil => exact List.Perm.refl _
  | cons y ys ih =>
    rw [insertDesc]
    split
    · exact List.Perm.refl _
    · exact (List.Perm.cons y ih).trans (List.Perm.swap x y ys)

theorem insertDesc_pairwise (x : ScoreEntry) (l : List ScoreEntry)
    (h : l.Pairwise fun a b => getKey b ≤ getKey a) :
    (insertDesc x l).Pairwise fun a b => getKey b ≤ getKey a := by
  induction l with
  | nil => exact List.pairwise_singleton _ _
  | cons y ys ih =>
    rw [insertDesc]
    rcases List.pairwise_cons.mp h with ⟨hy, hys⟩
    by_cases hle : getKey y ≤ getKey x
    · rw [if_pos hle]
      refine List.pairwise_cons.mpr ⟨?_, h⟩
      intro z hz
      rcases List.mem_cons.mp hz with rfl | hzys
      · exact hle
      · exact le_trans (hy z hzys) hle
    · rw [if_neg hle]
      refine List.pairwise_cons.mpr ⟨?_, ih hys⟩
      intro z hz
      rcases List.mem_cons.mp ((insertDesc_perm x ys).mem_iff.mp hz) with rfl | hzys
      · exact le_of_lt (Nat.lt_of_not_le hle)
      · exact hy z hzys

theorem insertDesc_filter_key (s : Nat) (x : ScoreEntry) (l : List ScoreEntry) :
    (insertDesc x l).filter (fun e => decide (getKey e = s)) =
      (x :: l).filter (fun e => decide (getKey e = s)) := by
  induction l with
  | nil => rfl
  | cons y ys ih =>
    rw [insertDesc]
    by_cases hle : getKey y ≤ getKey x
    · rw [if_pos hle]
    · rw [if_neg hle]
      by_cases hx : getKey x = s <;> by_cases hy : getKey y = s
      · exact absurd (le_of_eq (hy.trans hx.symm)) hle
      · simp [List.filter_cons, hx, hy] at ih ⊢
        exact ih
      · simp [List.filter_cons, hx, hy] at ih ⊢
        exact ih
      · simp [List.filter_cons, hx, hy] at ih ⊢
        exact ih

/-- C7: ranking is a stable descending sort by score — the output of
`sortedRepos` is non-increasing in `getKey`, it is a permutation of the
input (so every entry, with all its component counts, occurs exactly as
often as before), and for each score value the entries holding it keep
their original relative order (stability for ties). -/
theorem sortedRepos_stable_sort_desc (l : List ScoreEntry) :
    ((sortedRepos l).Pairwise fun a b => getKey b ≤ getKey a) ∧
    (sortedRepos l).Perm l ∧
    (∀ e : ScoreEntry, (sortedRepos l).count e = l.count e) ∧
    (∀ s : Nat, (sortedRepos l).filter (fun e => decide (getKey e = s)) =
      l.filter (fun e => decide (getKey e = s))) := by
  have hperm : ∀ m : List ScoreEntry, (sortedRepos m).Perm m := by
    intro m
    induction m with
    | nil => exact List.Perm.refl _
    | cons y ys ih =>
      exact ((insertDesc_perm y (sortedRepos ys)).trans (List.Perm.cons y ih))
  refine ⟨?_, hperm l, fun e => (hperm l).count_eq e, ?_⟩
  · induction l with
    | nil => exact List.Pairwise.nil
    | cons y ys ih => exact insertDesc_pairwise y (sortedRepos ys) ih
  · intro s
    induction l with
    | nil => rfl
    | cons y ys ih =>
      calc (sortedRepos (y :: ys)).filter (fun e => decide (getKey e = s))
          = (y :: sortedRepos ys).filter (fun e => decide (getKey e = s)) :=
            insertDesc_filter_key s y (sortedRepos ys)
        _ = (y :: ys).filter (fun e => decide (getKey e = s)) := by
            rw [List.filter_cons, List.filter_cons, ih]

/-! ### Pagination -/

theorem range'_one_eq (m : Nat) (h : 1 ≤ m) :
    List.range' 1 m = 1 :: List.range' 2 (m - 1) := by
  cases m with
  | zero => omega
  | succ n => rw [List.range'_succ]; norm_num

/-- Evaluation of one paginated fetch as an explicit record. -/
theorem getPaginatedGithubApiRequest_eval {α : Type} (pages : Nat → List α)
    (signal : Option Nat) :
    getPaginatedGithubApiRequest pages signal =
      { items := pages 1 ++ (List.range' 2
            ((if pageLimit < signal.getD 1 then pageLimit else signal.getD 1) - 1)).flatMap pages
        fetchedPages := 1 :: List.range' 2
            ((if pageLimit < signal.getD 1 then pageLimit else signal.getD 1) - 1)
        warnings := if pageLimit < signal.getD 1 then 1 else 0 } := rfl

/-- C8: the paginated fetcher caps the number of pages at `pageLimit = 10`:
when the reported last-page index `n` exceeds the cap, exactly one
truncation warning is logged and exactly `pageLimit` pages — pages 1
through `pageLimit` — are fetched; when `n` is within the cap, pages 1
through `n` are fetched with no warning and the items are the pages'
lists concatenated in page order. -/
theorem getPaginatedGithubApiRequest_cap (pages : Nat → List Nat) (n : Nat)
    (h : 1 ≤ n) :
    (pageLimit < n →
      (getPaginatedGithubApiRequest pages (some n)).warnings = 1 ∧
      (getPaginatedGithubApiRequest pages (some n)).fetchedPages = List.range' 1 pageLimit ∧
      (getPaginatedGithubApiRequest pages (some n)).fetchedPages.length = pageLimit ∧
      (getPaginatedGithubApiRequest pages (some n)).items =
        (List.range' 1 pageLimit).flatMap pages) ∧
    (n ≤ pageLimit →
      (getPaginatedGithubApiRequest pages (some n)).warnings = 0 ∧
      (getPaginatedGithubApiRequest pages (some n)).fetchedPages = List.range' 1 n ∧
      (getPaginatedGithubApiRequest pages (some n)).items =
        (List.range' 1 n).flatMap pages) := by
  have hr10 : List.range' 1 pageLimit = 1 :: List.range' 2 (pageLimit - 1) :=
    range'_one_eq pageLimit (by norm_num [pageLimit])
  constructor
  · intro hn
    rw [getPaginatedGithubApiRequest_eval]
    dsimp only
    simp only [Option.getD_some, if_pos hn]
    refine ⟨trivial, hr10.symm, ?_, ?_⟩
    · rw [← hr10, List.length_range']
    · rw [hr10, List.flatMap_cons]
  · intro hn
    have hnot : ¬ pageLimit < n := Nat.not_lt.mpr hn
    rw [getPaginatedGithubApiRequest_eval]
    dsimp only
    simp only [Option.getD_some, if_neg hnot]
    exact ⟨trivial, (range'_one_eq n h).symm,
      by rw [range'_one_eq n h, List.flatMap_cons]⟩

/-- Witness for C8 at a concrete input: a reported last-page index of 15
against the cap of 10 — exactly one warning and exactly 10 pages, pages 1
through 10. -/
theorem getPaginatedGithubApiRequest_cap_witness :
    (1 ≤ 15 ∧ pageLimit < 15) ∧
      (getPaginatedGithubApiRequest (fun _ => ([] : List Nat)) (some 15)).warnings = 1 ∧
      (getPaginatedGithubApiRequest (fun _ => ([] : List Nat)) (some 15)).fetchedPages =
        List.range' 1 pageLimit ∧
      (getPaginatedGithubApiRequest (fun _ => ([] : List Nat)) (some 15)).fetchedPages.length =
        pageLimit ∧
      (getPaginatedGithubApiRequest (fun _ => ([] : List Nat)) (some 15)).items =
        (List.range' 1 pageLimit).flatMap (fun _ => ([] : List Nat)) :=
  ⟨⟨by decide, by decide⟩,
    (getPaginatedGithubApiRequest_cap (fun _ => ([] : List Nat)) 15 (by decide)).1
      (by decide)⟩

end ActiveGithub
